import Mathlib

/-!
# libevlite session layer: handle codec, status flags, session manager

Shallow embedding of `src/session.h`.  Machine integers are natural numbers
(unsigned) or integers (signed) with the wrap-around written out.
-/

namespace Session

/-! ## Status flags (`session.h` lines 19-22) -/

def SESSION_READING : Int := 0x01
def SESSION_WRITING : Int := 0x02
def SESSION_KEEPALIVING : Int := 0x04
def SESSION_EXITING : Int := 0x10

/-! ## Handle masks and decode macros (`session.h` lines 77-84) -/

def SID_MASK : Nat := 0x00ffffffffffffff
def KEY_MASK : Nat := 0x0000ffffffff0000
def SEQ_MASK : Nat := 0x000000000000ffff
def INDEX_MASK : Nat := 0x00ff000000000000

/-- Subtraction of `unsigned long long` operands: the result is reduced
modulo `2^64`. -/
def sub_u64 (a b : Nat) : Nat := (a % 2 ^ 64 + (2 ^ 64 - b % 2 ^ 64)) % 2 ^ 64

/-- Macro `SID_SEQ(sid)`, defined as `( (sid)&SEQ_MASK )`. -/
def SID_SEQ (sid : Nat) : Nat := sid &&& SEQ_MASK

/-- Macro `SID_KEY(sid)`, defined as `( ((sid)&KEY_MASK) >> 16 )`. -/
def SID_KEY (sid : Nat) : Nat := (sid &&& KEY_MASK) >>> 16

/-- Macro `SID_INDEX(sid)`, defined as `( ( ((sid)&INDEX_MASK) >> 48 ) - 1 )`;
the operands are `unsigned long long`, so the subtraction wraps. -/
def SID_INDEX (sid : Nat) : Nat := sub_u64 ((sid &&& INDEX_MASK) >>> 48) 1

/-! ## Status field operations -/

/-- Conversion of an `int` value to the `int8_t` field `session.status`
(two's complement, reduced into `[-128, 127]`). -/
def wrap_int8 (x : Int) : Int := (x + 128) % 256 - 128

/-- The range of the `int8_t` field `session.status`. -/
def is_int8 (x : Int) : Prop := -128 ≤ x ∧ x ≤ 127

instance is_int8_decidable (x : Int) : Decidable (is_int8 x) := by
  unfold is_int8; infer_instance

/-- The four flags of `session.h` lines 19-22. -/
def session_flags : List Int :=
  [SESSION_READING, SESSION_WRITING, SESSION_KEEPALIVING, SESSION_EXITING]

/-- Setting a flag: the C statement `status |= f` on the `int8_t` field
`session.status` (the operands are promoted to `int`, the result is stored
back into the field). -/
def set_flag (s f : Int) : Int := wrap_int8 (Int.lor s f)

/-- Clearing a flag: the C statement `status &= ~f` on the `int8_t` field
`session.status`. -/
def clear_flag (s f : Int) : Int := wrap_int8 (Int.land s (Int.lnot f))

/-- Testing a flag: the C expression `status & g`. -/
def test_flag (s g : Int) : Int := Int.land s g

/-- The status value in which exactly the chosen flags are set. -/
def status_of (reading writing keepaliving exiting : Bool) : Int :=
  Int.lor (Int.lor (Int.lor (if reading then SESSION_READING else 0)
    (if writing then SESSION_WRITING else 0))
    (if keepaliving then SESSION_KEEPALIVING else 0))
    (if exiting then SESSION_EXITING else 0)

/-! ## Handle encoder -/

/-- Modelled from the spec: the handle encoder `encode(manager_index, key,
sequence)` of §4.1 (the code that mints handles is in `session.c`, which is
not part of the source tree).  It packs the fields per the layout of §3 and of
the comment at `session.h` lines 72-75: reserved bits zero, `index+1` in the
8-bit field at bits 55-48, the key in bits 47-16, the sequence in bits 15-0;
it fails when the key exceeds 32 bits or the sequence exceeds 16 bits. -/
def encode (index key seq : Nat) : Option Nat :=
  if key < 2 ^ 32 ∧ seq < 2 ^ 16 then
    some ((((index + 1) % 2 ^ 8) <<< 48) ||| (key <<< 16) ||| seq)
  else none

/-- Modelled from the spec: the increment of a slot's sequence done by `alloc`
(§4.3; `session.c` is not part of the source tree), on the `uint16_t` field
`session_entry.seq` of `session.h` line 129: it wraps modulo `2^16`. -/
def seq_next (seq : Nat) : Nat := (seq + 1) % 2 ^ 16

/-! ## Session and session manager records (`session.h` lines 30-70, 126-144) -/

/-- Record `struct session_setting`. -/
structure session_setting where
  timeout_msecs : Int
  keepalive_msecs : Int
  max_inbuffer_len : Int
deriving DecidableEq

/-- Record `struct session`, its scalar fields; the event registrations, buffers,
message queue and callback table belong to external collaborators and are left
out. -/
structure session where
  id : Nat
  fd : Int
  type : Int
  status : Int
  port : Nat
  msgoffsets : Int
  setting : session_setting
deriving DecidableEq

/-- Record `struct session_entry`. -/
structure session_entry where
  key : Int
  seq : Nat
  data : session
deriving DecidableEq

/-- Modelled from the spec: one slot of the manager's array (§3: "a slot is
either free or bound to exactly one live session").  `session_entry` has no
field that says so and `session.c` is not part of the source tree, so the
binding is kept beside the entry. -/
structure slot where
  entry : session_entry
  bound : Bool
deriving DecidableEq

/-- Record `struct session_manager`; `entries` is the array of slots. -/
structure session_manager where
  index : Nat
  size : Nat
  count : Nat
  entries : List slot
deriving DecidableEq

/-- Failure results of the manager operations (§4.3, §7). -/
inductive manager_error where
  | Exhausted
  | DuplicateKey
  | BadKey
deriving DecidableEq

/-- A session that has never been started. -/
def idle_session : session :=
  { id := 0, fd := -1, type := 0, status := 0, port := 0, msgoffsets := 0,
    setting := { timeout_msecs := 0, keepalive_msecs := 0, max_inbuffer_len := 0 } }

/-- Modelled from the spec: `session_manager_create(index, size)` of §4.3
(`session.c` is not part of the source tree): it allocates `size` free slots
and stamps `index` onto the manager. -/
def session_manager_create (index size : Nat) : session_manager :=
  { index := index, size := size, count := 0,
    entries := List.replicate size
      { entry := { key := 0, seq := 0, data := idle_session }, bound := false } }

/-- Modelled from the spec: `session_manager_alloc(self, key)` of §4.3
(`session.c` is not part of the source tree).  The slot of a key is found by
the deterministic mapping `slot_of` from the key to an index of the array
(§3 leaves it open: direct indexing or `key mod size`).  The call fails with
`Exhausted` when `count == size` or the key has no slot, with `DuplicateKey`
when the key's slot is bound; otherwise it increments the slot's sequence,
mints the handle from the manager's index, the key and the new sequence,
binds the slot and returns the session. -/
def session_manager_alloc (slot_of : Nat → Nat) (self : session_manager) (key : Int) :
    Except manager_error (session_manager × session) :=
  if key < 0 then .error .BadKey
  else if self.size ≤ self.count then .error .Exhausted
  else
    match self.entries[slot_of key.toNat]? with
    | none => .error .Exhausted
    | some sl =>
      if sl.bound then .error .DuplicateKey
      else
        match encode self.index key.toNat (seq_next sl.entry.seq) with
        | none => .error .BadKey
        | some id =>
          let data : session := { sl.entry.data with id := id }
          .ok ({ self with
                  count := self.count + 1
                  entries := self.entries.set (slot_of key.toNat)
                    { entry := { key := key, seq := seq_next sl.entry.seq, data := data },
                      bound := true } },
               data)

/-- Modelled from the spec: the slot a handle refers to (§4.3 `get`: "decodes
the handle, locates the slot by key"): the slot at the position of the
handle's key, when it is bound to that key. -/
def locate (slot_of : Nat → Nat) (self : session_manager) (id : Nat) : Option slot :=
  match self.entries[slot_of (SID_KEY id)]? with
  | none => none
  | some sl => if sl.bound = true ∧ sl.entry.key = (SID_KEY id : Int) then some sl else none

/-- Modelled from the spec: `session_manager_get(self, id)` of §4.3
(`session.c` is not part of the source tree): it returns the session only if
the located slot's sequence equals the sequence of the handle, and `none`
("not found") otherwise. -/
def session_manager_get (slot_of : Nat → Nat) (self : session_manager) (id : Nat) :
    Option session :=
  match locate slot_of self id with
  | none => none
  | some sl => if sl.entry.seq = SID_SEQ id then some sl.entry.data else none

/-- Modelled from the spec: `session_manager_remove(self, session)` of §4.3
(`session.c` is not part of the source tree): it marks the slot of the session
free, leaving its sequence as it is (the sequence is bumped by the next
`alloc`); `none` when the session holds no slot of the manager. -/
def session_manager_remove (slot_of : Nat → Nat) (self : session_manager) (s : session) :
    Option session_manager :=
  match locate slot_of self s.id with
  | none => none
  | some sl =>
    if sl.entry.seq = SID_SEQ s.id then
      some { self with
              count := self.count - 1
              entries := self.entries.set (slot_of (SID_KEY s.id)) { sl with bound := false } }
    else none

/-! ## Arithmetic reading of the macros -/

theorem and_shifted_mask (x w s : Nat) :
    (x &&& ((2 ^ w - 1) <<< s)) >>> s = x / 2 ^ s % 2 ^ w := by
  apply Nat.eq_of_testBit_eq
  intro i
  rw [← Nat.shiftRight_eq_div_pow]
  simp only [Nat.testBit_shiftRight, Nat.testBit_and, Nat.testBit_shiftLeft,
    Nat.testBit_two_pow_sub_one, Nat.testBit_mod_two_pow]
  have h1 : s + i ≥ s := by omega
  have h2 : s + i - s = i := by omega
  simp [h1, h2, Bool.and_comm]

theorem SID_SEQ_eq (sid : Nat) : SID_SEQ sid = sid % 2 ^ 16 := by
  have h : SEQ_MASK = 2 ^ 16 - 1 := by decide
  rw [SID_SEQ, h, Nat.and_pow_two_sub_one_eq_mod]

theorem SID_KEY_eq (sid : Nat) : SID_KEY sid = sid / 2 ^ 16 % 2 ^ 32 := by
  have h : KEY_MASK = (2 ^ 32 - 1) <<< 16 := by decide
  rw [SID_KEY, h, and_shifted_mask]

theorem index_field_eq (sid : Nat) :
    (sid &&& INDEX_MASK) >>> 48 = sid / 2 ^ 48 % 2 ^ 8 := by
  have h : INDEX_MASK = (2 ^ 8 - 1) <<< 48 := by decide
  rw [h, and_shifted_mask]

theorem SID_INDEX_eq (sid : Nat) :
    SID_INDEX sid = (sid / 2 ^ 48 % 2 ^ 8 + (2 ^ 64 - 1)) % 2 ^ 64 := by
  rw [SID_INDEX, index_field_eq, sub_u64]
  have h : sid / 2 ^ 48 % 2 ^ 8 < 2 ^ 8 := Nat.mod_lt _ (by norm_num)
  have h1 : sid / 2 ^ 48 % 2 ^ 8 % 2 ^ 64 = sid / 2 ^ 48 % 2 ^ 8 :=
    Nat.mod_eq_of_lt (by omega)
  have h2 : (1 : Nat) % 2 ^ 64 = 1 := by norm_num
  rw [h1, h2]

theorem and_SID_MASK_eq (sid : Nat) : sid &&& SID_MASK = sid % 2 ^ 56 := by
  have h : SID_MASK = 2 ^ 56 - 1 := by decide
  rw [h, Nat.and_pow_two_sub_one_eq_mod]

theorem index_field_zero_iff_bits (sid : Nat) :
    (sid &&& INDEX_MASK) >>> 48 = 0 ↔ ∀ i, 48 ≤ i → i ≤ 55 → sid.testBit i = false := by
  rw [index_field_eq, ← Nat.shiftRight_eq_div_pow]
  constructor
  · intro h i h1 h2
    have h3 := congrArg (fun x => x.testBit (i - 48)) h
    simp only [Nat.testBit_mod_two_pow, Nat.testBit_shiftRight, Nat.zero_testBit] at h3
    have h4 : 48 + (i - 48) = i := by omega
    have h5 : i - 48 < 8 := by omega
    simpa [h4, h5] using h3
  · intro h
    apply Nat.eq_of_testBit_eq
    intro j
    simp only [Nat.testBit_mod_two_pow, Nat.testBit_shiftRight, Nat.zero_testBit]
    by_cases hj : j < 8
    · simp [hj, h (48 + j) (by omega) (by omega)]
    · simp [hj]

theorem shl_or_eq_add (a b i : Nat) (hb : b < 2 ^ i) : a <<< i ||| b = a * 2 ^ i + b := by
  rw [Nat.shiftLeft_eq, Nat.mul_comm a, ← Nat.mul_add_lt_is_or hb]

theorem encode_val (index key seq : Nat) (hk : key < 2 ^ 32) (hs : seq < 2 ^ 16) :
    encode index key seq = some ((index + 1) % 2 ^ 8 * 2 ^ 48 + key * 2 ^ 16 + seq) := by
  have h1 : key <<< 16 < 2 ^ 48 := by rw [Nat.shiftLeft_eq]; omega
  have h2 : ((index + 1) % 2 ^ 8) <<< 48 ||| key <<< 16
      = ((index + 1) % 2 ^ 8 * 2 ^ 32 + key) <<< 16 := by
    rw [shl_or_eq_add _ _ _ h1, Nat.shiftLeft_eq, Nat.shiftLeft_eq]
    omega
  have h3 : ((index + 1) % 2 ^ 8 * 2 ^ 32 + key) <<< 16 ||| seq
      = (index + 1) % 2 ^ 8 * 2 ^ 48 + key * 2 ^ 16 + seq := by
    rw [shl_or_eq_add _ _ _ hs]
    omega
  unfold encode
  rw [if_pos ⟨hk, hs⟩, h2, h3]

theorem iterate_seq_next (n s : Nat) (hs : s < 2 ^ 16) :
    seq_next^[n] s = (s + n) % 2 ^ 16 := by
  induction n with
  | zero => simp; omega
  | succ k ih =>
    rw [Function.iterate_succ_apply', ih, seq_next]
    omega

/-! ## Handle codec claims -/

/-- C1: for index in [0,254], key in [0, 2^32-1] and sequence in [0, 65535] the
encoder yields a handle with reserved bits zero and `index+1` in the index
field, and the three decode macros give back index, key and sequence. -/
theorem handle_round_trip (index key seq : Nat) (hi : index ≤ 254) (hk : key < 2 ^ 32)
    (hs : seq < 2 ^ 16) :
    ∃ sid, encode index key seq = some sid ∧ sid < 2 ^ 56 ∧
      (sid &&& INDEX_MASK) >>> 48 = index + 1 ∧
      SID_INDEX sid = index ∧ SID_KEY sid = key ∧ SID_SEQ sid = seq := by
  refine ⟨_, encode_val index key seq hk hs, ?_, ?_, ?_, ?_, ?_⟩
  · omega
  · rw [index_field_eq]; omega
  · rw [SID_INDEX_eq]; omega
  · rw [SID_KEY_eq]; omega
  · rw [SID_SEQ_eq]; omega

theorem handle_round_trip_witness :
    ∃ sid, encode 3 7 9 = some sid ∧ sid < 2 ^ 56 ∧
      (sid &&& INDEX_MASK) >>> 48 = 3 + 1 ∧
      SID_INDEX sid = 3 ∧ SID_KEY sid = 7 ∧ SID_SEQ sid = 9 :=
  handle_round_trip 3 7 9 (by decide) (by decide) (by decide)

/-- C3: the decode macros read the bit-exact layout: `SID_SEQ` is bits 15-0,
`SID_KEY` is bits 47-16, `SID_INDEX` is bits 55-48 minus one computed modulo
`2^64`; the sequence is at most 65535 and the key at most `2^32-1`. -/
theorem decode_layout (sid : Nat) :
    SID_SEQ sid = sid % 2 ^ 16 ∧
    SID_KEY sid = sid / 2 ^ 16 % 2 ^ 32 ∧
    (SID_INDEX sid : Int) = (((sid / 2 ^ 48 % 2 ^ 8 : Nat) : Int) - 1) % 2 ^ 64 ∧
    SID_SEQ sid ≤ 65535 ∧ SID_KEY sid ≤ 2 ^ 32 - 1 := by
  rw [SID_SEQ_eq, SID_KEY_eq, SID_INDEX_eq]
  refine ⟨rfl, rfl, ?_, ?_, ?_⟩ <;> omega

/-- C4: `SID_INDEX` is the underflow value `2^64-1` exactly when bits 55-48 of
the handle are all zero; otherwise it is the stored field minus one and lies in
[0,254]. -/
theorem index_unset_iff (sid : Nat) :
    (SID_INDEX sid = 2 ^ 64 - 1 ↔ ∀ i, 48 ≤ i → i ≤ 55 → sid.testBit i = false) ∧
    (SID_INDEX sid = 2 ^ 64 - 1 ↔ (sid &&& INDEX_MASK) >>> 48 = 0) ∧
    ((sid &&& INDEX_MASK) >>> 48 ≠ 0 →
      SID_INDEX sid = (sid &&& INDEX_MASK) >>> 48 - 1 ∧ SID_INDEX sid ≤ 254) := by
  have key : SID_INDEX sid = 2 ^ 64 - 1 ↔ (sid &&& INDEX_MASK) >>> 48 = 0 := by
    rw [SID_INDEX_eq, index_field_eq]; omega
  refine ⟨?_, key, ?_⟩
  · rw [key, index_field_zero_iff_bits]
  · rw [SID_INDEX_eq, index_field_eq]; omega

/-- C5: two handles that agree on bits 55-0 decode to the same sequence, key
and index, and each decode of a handle equals the decode of the handle masked
with `SID_MASK`. -/
theorem reserved_bits_ignored (a b : Nat) (h : a &&& SID_MASK = b &&& SID_MASK) :
    (SID_SEQ a = SID_SEQ b ∧ SID_KEY a = SID_KEY b ∧ SID_INDEX a = SID_INDEX b) ∧
    (SID_SEQ a = SID_SEQ (a &&& SID_MASK) ∧ SID_KEY a = SID_KEY (a &&& SID_MASK) ∧
      SID_INDEX a = SID_INDEX (a &&& SID_MASK)) := by
  rw [and_SID_MASK_eq, and_SID_MASK_eq] at h
  simp only [and_SID_MASK_eq, SID_SEQ_eq, SID_KEY_eq, SID_INDEX_eq]
  refine ⟨⟨?_, ?_, ?_⟩, ?_, ?_, ?_⟩ <;> omega

theorem reserved_bits_ignored_witness :
    (SID_SEQ 0xab03000000070009 = SID_SEQ 0x5c03000000070009 ∧
      SID_KEY 0xab03000000070009 = SID_KEY 0x5c03000000070009 ∧
      SID_INDEX 0xab03000000070009 = SID_INDEX 0x5c03000000070009) ∧
    (SID_SEQ 0xab03000000070009 = SID_SEQ (0xab03000000070009 &&& SID_MASK) ∧
      SID_KEY 0xab03000000070009 = SID_KEY (0xab03000000070009 &&& SID_MASK) ∧
      SID_INDEX 0xab03000000070009 = SID_INDEX (0xab03000000070009 &&& SID_MASK)) :=
  reserved_bits_ignored 0xab03000000070009 0x5c03000000070009 (by decide)

/-- C9: the three field masks are pairwise disjoint and their union is
`SID_MASK`; two handles agree under `SID_MASK` exactly when their sequence, key
and index decodes agree. -/
theorem masks_partition_decode_injective (a b : Nat) :
    (SEQ_MASK &&& KEY_MASK = 0 ∧ SEQ_MASK &&& INDEX_MASK = 0 ∧ KEY_MASK &&& INDEX_MASK = 0) ∧
    SEQ_MASK ||| KEY_MASK ||| INDEX_MASK = SID_MASK ∧
    (a &&& SID_MASK = b &&& SID_MASK ↔
      SID_SEQ a = SID_SEQ b ∧ SID_KEY a = SID_KEY b ∧ SID_INDEX a = SID_INDEX b) := by
  refine ⟨by decide, by decide, ?_⟩
  simp only [and_SID_MASK_eq, SID_SEQ_eq, SID_KEY_eq, SID_INDEX_eq]
  omega

/-- C8: no handle decodes to manager index 255: `SID_INDEX` is in [0,254] or is
`2^64-1`, which truncated to `uint8_t` is 255; an index field that received
`255+1` holds zero, and such a handle decodes as "no manager". -/
theorem index_255_not_representable (sid : Nat) :
    SID_INDEX sid ≠ 255 ∧
    (SID_INDEX sid ≤ 254 ∨ SID_INDEX sid = 2 ^ 64 - 1) ∧
    (SID_INDEX sid = 2 ^ 64 - 1 → SID_INDEX sid % 2 ^ 8 = 255) ∧
    (255 + 1) % 2 ^ 8 = 0 ∧
    ((sid &&& INDEX_MASK) >>> 48 = (255 + 1) % 2 ^ 8 → SID_INDEX sid = 2 ^ 64 - 1) ∧
    (∀ low, low < 2 ^ 48 → SID_INDEX ((255 + 1) * 2 ^ 48 + low) = 2 ^ 64 - 1) := by
  simp only [SID_INDEX_eq, index_field_eq]
  refine ⟨?_, ?_, ?_, ?_, ?_, ?_⟩ <;> omega

/-- C7: the slot sequence is a 16-bit counter: 65536 increments return to the
starting value, the handle minted then equals the handle minted 65536
generations earlier, and two handles of one slot that are `n` recyclings apart
are equal exactly when `n` is a multiple of 65536. -/
theorem sequence_wrap_around (index key s n : Nat) (hk : key < 2 ^ 32) (hs : s < 2 ^ 16) :
    seq_next^[65536] s = s ∧
    encode index key (seq_next^[65536] s) = encode index key s ∧
    (encode index key (seq_next^[n] s) = encode index key s ↔ 65536 ∣ n) := by
  have h1 : seq_next^[65536] s = s := by rw [iterate_seq_next _ _ hs]; omega
  refine ⟨h1, by rw [h1], ?_⟩
  have h2 : seq_next^[n] s < 2 ^ 16 := by rw [iterate_seq_next _ _ hs]; omega
  rw [encode_val _ _ _ hk h2, encode_val _ _ _ hk hs, iterate_seq_next _ _ hs]
  constructor
  · intro h
    have h3 := Option.some.inj h
    omega
  · intro h
    have h3 : (s + n) % 2 ^ 16 = s := by omega
    rw [h3]

theorem sequence_wrap_around_witness :
    seq_next^[65536] 9 = 9 ∧
    encode 3 7 (seq_next^[65536] 9) = encode 3 7 9 ∧
    (encode 3 7 (seq_next^[5] 9) = encode 3 7 9 ↔ 65536 ∣ 5) :=
  sequence_wrap_around 3 7 9 5 (by decide) (by decide)

/-! ## Status flags -/

theorem int_testBit_zero (k : Nat) : Int.testBit 0 k = false := by
  show Nat.testBit 0 k = false
  exact Nat.zero_testBit k

theorem int_eq_of_testBit_eq (m n : Int) (h : ∀ k, m.testBit k = n.testBit k) : m = n := by
  have big : ∀ a b : Nat, a < 2 ^ (a + b) := fun a b =>
    lt_of_lt_of_le (Nat.lt_two_pow a) (Nat.pow_le_pow_right (by norm_num) (by omega))
  cases m with
  | ofNat a =>
    cases n with
    | ofNat b =>
      have hab : a = b := Nat.eq_of_testBit_eq (fun k => by simpa [Int.testBit] using h k)
      rw [hab]
    | negSucc b =>
      exfalso
      have h1 := h (a + b)
      simp only [Int.testBit] at h1
      rw [Nat.testBit_lt_two_pow (big a b),
        Nat.testBit_lt_two_pow (by rw [Nat.add_comm]; exact big b a)] at h1
      simp at h1
  | negSucc a =>
    cases n with
    | ofNat b =>
      exfalso
      have h1 := h (a + b)
      simp only [Int.testBit] at h1
      rw [Nat.testBit_lt_two_pow (big a b),
        Nat.testBit_lt_two_pow (by rw [Nat.add_comm]; exact big b a)] at h1
      simp at h1
    | negSucc b =>
      have hab : a = b := Nat.eq_of_testBit_eq (fun k => by simpa [Int.testBit] using h k)
      rw [hab]

theorem land_lor_disjoint (s f g : Int) (hfg : Int.land f g = 0) :
    Int.land (Int.lor s f) g = Int.land s g := by
  apply int_eq_of_testBit_eq
  intro k
  have h := congrArg (fun x => Int.testBit x k) hfg
  simp only [Int.testBit_land, int_testBit_zero] at h
  simp only [Int.testBit_land, Int.testBit_lor]
  cases hs : s.testBit k <;> cases hf : f.testBit k <;> cases hg : g.testBit k <;> simp_all

theorem land_clear_disjoint (s f g : Int) (hfg : Int.land f g = 0) :
    Int.land (Int.land s (Int.lnot f)) g = Int.land s g := by
  apply int_eq_of_testBit_eq
  intro k
  have h := congrArg (fun x => Int.testBit x k) hfg
  simp only [Int.testBit_land, int_testBit_zero] at h
  simp only [Int.testBit_land, Int.testBit_lnot]
  cases hs : s.testBit k <;> cases hf : f.testBit k <;> cases hg : g.testBit k <;> simp_all

theorem land_lor_self (s f : Int) : Int.land (Int.lor s f) f = f := by
  apply int_eq_of_testBit_eq
  intro k
  simp only [Int.testBit_land, Int.testBit_lor]
  cases hs : s.testBit k <;> cases hf : f.testBit k <;> simp

theorem land_clear_self (s f : Int) : Int.land (Int.land s (Int.lnot f)) f = 0 := by
  apply int_eq_of_testBit_eq
  intro k
  simp only [Int.testBit_land, Int.testBit_lnot, int_testBit_zero]
  cases hs : s.testBit k <;> cases hf : f.testBit k <;> simp

theorem ldiff_lt_two_pow (a b n : Nat) (ha : a < 2 ^ n) (hb : b < 2 ^ n) :
    Nat.ldiff a b < 2 ^ n :=
  Nat.bitwise_lt_two_pow ha hb

theorem wrap_int8_of_is_int8 (x : Int) (h : is_int8 x) : wrap_int8 x = x := by
  unfold is_int8 at h
  unfold wrap_int8
  omega

theorem is_int8_lor (s f : Int) (hs : is_int8 s) (hf : 0 ≤ f ∧ f ≤ 127) :
    is_int8 (Int.lor s f) := by
  unfold is_int8 at *
  cases f with
  | negSucc m => exfalso; have := Int.negSucc_lt_zero m; omega
  | ofNat m =>
    have hm : m < 2 ^ 7 := by simp at hf; omega
    cases s with
    | ofNat n =>
      have hn : n < 2 ^ 7 := by simp at hs; omega
      have := Nat.or_lt_two_pow hn hm
      show -128 ≤ ((n ||| m : Nat) : Int) ∧ ((n ||| m : Nat) : Int) ≤ 127
      omega
    | negSucc n =>
      have hn : n < 2 ^ 7 := by
        have := hs.1
        rw [Int.negSucc_eq] at this
        omega
      have := ldiff_lt_two_pow n m 7 hn hm
      show -128 ≤ Int.negSucc (Nat.ldiff n m) ∧ Int.negSucc (Nat.ldiff n m) ≤ 127
      rw [Int.negSucc_eq]
      omega

theorem is_int8_land_lnot (s f : Int) (hs : is_int8 s) (hf : 0 ≤ f ∧ f ≤ 127) :
    is_int8 (Int.land s (Int.lnot f)) := by
  unfold is_int8 at *
  cases f with
  | negSucc m => exfalso; have := Int.negSucc_lt_zero m; omega
  | ofNat m =>
    have hm : m < 2 ^ 7 := by simp at hf; omega
    cases s with
    | ofNat n =>
      have hn : n < 2 ^ 7 := by simp at hs; omega
      have := ldiff_lt_two_pow n m 7 hn hm
      show -128 ≤ ((Nat.ldiff n m : Nat) : Int) ∧ ((Nat.ldiff n m : Nat) : Int) ≤ 127
      omega
    | negSucc n =>
      have hn : n < 2 ^ 7 := by
        have := hs.1
        rw [Int.negSucc_eq] at this
        omega
      have := Nat.or_lt_two_pow hn hm
      show -128 ≤ Int.negSucc (n ||| m) ∧ Int.negSucc (n ||| m) ≤ 127
      rw [Int.negSucc_eq]
      omega

theorem session_flags_facts :
    (∀ x ∈ session_flags, x ≠ 0 ∧ 0 ≤ x ∧ x ≤ 127) ∧
    (∀ x ∈ session_flags, ∀ y ∈ session_flags, x ≠ y → Int.land x y = 0) := by
  decide

/-- C6: the four status flags are non-zero, pairwise bit-disjoint, and their
union 0x17 is a non-negative `int8_t`; for an `int8_t` status `s` and distinct
flags `f`, `g`, setting or clearing `f` leaves the test of `g` unchanged (and
does set, respectively clear, `f`, within the `int8_t` range); the 16 flag
combinations are 16 distinct status values. -/
theorem status_flags_independent (s f g : Int) (hs : is_int8 s) (hf : f ∈ session_flags)
    (hg : g ∈ session_flags) (hfg : f ≠ g) :
    (∀ x ∈ session_flags, x ≠ 0) ∧
    (∀ x ∈ session_flags, ∀ y ∈ session_flags, x ≠ y → Int.land x y = 0) ∧
    (Int.lor (Int.lor (Int.lor SESSION_READING SESSION_WRITING) SESSION_KEEPALIVING)
        SESSION_EXITING = 0x17 ∧ (0 : Int) ≤ 0x17 ∧ is_int8 0x17) ∧
    (test_flag (set_flag s f) g = test_flag s g ∧
      test_flag (clear_flag s f) g = test_flag s g) ∧
    (test_flag (set_flag s f) f = f ∧ test_flag (clear_flag s f) f = 0 ∧
      is_int8 (set_flag s f) ∧ is_int8 (clear_flag s f)) ∧
    (∀ r w k e r2 w2 k2 e2 : Bool, status_of r w k e = status_of r2 w2 k2 e2 →
      r = r2 ∧ w = w2 ∧ k = k2 ∧ e = e2) := by
  have hdis := session_flags_facts.2 f hf g hg hfg
  have hrange := (session_flags_facts.1 f hf).2
  have h1 := is_int8_lor s f hs hrange
  have h2 := is_int8_land_lnot s f hs hrange
  refine ⟨fun x hx => (session_flags_facts.1 x hx).1, session_flags_facts.2,
    by decide, ⟨?_, ?_⟩, ⟨?_, ?_, ?_, ?_⟩, by decide⟩
  · rw [test_flag, set_flag, wrap_int8_of_is_int8 _ h1, land_lor_disjoint s f g hdis]
    rfl
  · rw [test_flag, clear_flag, wrap_int8_of_is_int8 _ h2, land_clear_disjoint s f g hdis]
    rfl
  · rw [test_flag, set_flag, wrap_int8_of_is_int8 _ h1, land_lor_self]
  · rw [test_flag, clear_flag, wrap_int8_of_is_int8 _ h2, land_clear_self]
  · rw [set_flag, wrap_int8_of_is_int8 _ h1]; exact h1
  · rw [clear_flag, wrap_int8_of_is_int8 _ h2]; exact h2

theorem status_flags_independent_witness :
    (∀ x ∈ session_flags, x ≠ 0) ∧
    (∀ x ∈ session_flags, ∀ y ∈ session_flags, x ≠ y → Int.land x y = 0) ∧
    (Int.lor (Int.lor (Int.lor SESSION_READING SESSION_WRITING) SESSION_KEEPALIVING)
        SESSION_EXITING = 0x17 ∧ (0 : Int) ≤ 0x17 ∧ is_int8 0x17) ∧
    (test_flag (set_flag (-123) SESSION_WRITING) SESSION_EXITING
        = test_flag (-123) SESSION_EXITING ∧
      test_flag (clear_flag (-123) SESSION_WRITING) SESSION_EXITING
        = test_flag (-123) SESSION_EXITING) ∧
    (test_flag (set_flag (-123) SESSION_WRITING) SESSION_WRITING = SESSION_WRITING ∧
      test_flag (clear_flag (-123) SESSION_WRITING) SESSION_WRITING = 0 ∧
      is_int8 (set_flag (-123) SESSION_WRITING) ∧
      is_int8 (clear_flag (-123) SESSION_WRITING)) ∧
    (∀ r w k e r2 w2 k2 e2 : Bool, status_of r w k e = status_of r2 w2 k2 e2 →
      r = r2 ∧ w = w2 ∧ k = k2 ∧ e = e2) :=
  status_flags_independent (-123) SESSION_WRITING SESSION_EXITING (by decide) (by decide)
    (by decide) (by decide)

/-! ## Session manager -/

theorem getElem?_set_of_some (l : List slot) (i : Nat) (sl new : slot)
    (h : l[i]? = some sl) : (l.set i new)[i]? = some new := by
  obtain ⟨hi, _⟩ := List.getElem?_eq_some.mp h
  exact List.getElem?_set_self hi

theorem encode_inv (index key seq id : Nat) (h : encode index key seq = some id) :
    key < 2 ^ 32 ∧ seq < 2 ^ 16 ∧ SID_KEY id = key ∧ SID_SEQ id = seq ∧
      (id &&& INDEX_MASK) >>> 48 = (index + 1) % 2 ^ 8 := by
  by_cases hv : key < 2 ^ 32 ∧ seq < 2 ^ 16
  · obtain ⟨hk, hs⟩ := hv
    rw [encode_val index key seq hk hs] at h
    have h1 := Option.some.inj h
    subst h1
    rw [SID_KEY_eq, SID_SEQ_eq, index_field_eq]
    refine ⟨hk, hs, ?_, ?_, ?_⟩ <;> omega
  · unfold encode at h
    rw [if_neg hv] at h
    cases h

theorem seq_next_ne (seq : Nat) : seq_next seq ≠ seq := by
  unfold seq_next
  omega

theorem seq_next_lt (seq : Nat) : seq_next seq < 2 ^ 16 := by
  unfold seq_next
  omega

theorem alloc_ok (slot_of : Nat → Nat) (m : session_manager) (key : Int) (sl : slot)
    (id : Nat) (hk : 0 ≤ key) (hc : m.count < m.size)
    (he : m.entries[slot_of key.toNat]? = some sl) (hb : sl.bound = false)
    (hid : encode m.index key.toNat (seq_next sl.entry.seq) = some id) :
    session_manager_alloc slot_of m key =
      .ok ({ m with
              count := m.count + 1
              entries := m.entries.set (slot_of key.toNat)
                { entry := { key := key, seq := seq_next sl.entry.seq,
                             data := { sl.entry.data with id := id } },
                  bound := true } },
           { sl.entry.data with id := id }) := by
  unfold session_manager_alloc
  rw [if_neg (by omega), if_neg (by omega)]
  simp only [he, hb, hid]
  rfl

theorem alloc_inv (slot_of : Nat → Nat) (m m1 : session_manager) (key : Int) (s1 : session)
    (h : session_manager_alloc slot_of m key = .ok (m1, s1)) :
    ∃ sl id, 0 ≤ key ∧ m.count < m.size ∧
      m.entries[slot_of key.toNat]? = some sl ∧ sl.bound = false ∧
      encode m.index key.toNat (seq_next sl.entry.seq) = some id := by
  unfold session_manager_alloc at h
  by_cases hk : key < 0
  · rw [if_pos hk] at h; cases h
  · rw [if_neg hk] at h
    by_cases hc : m.size ≤ m.count
    · rw [if_pos hc] at h; cases h
    · rw [if_neg hc] at h
      cases he : m.entries[slot_of key.toNat]? with
      | none => simp only [he] at h; cases h
      | some sl =>
        simp only [he] at h
        cases hb : sl.bound with
        | true => simp only [hb] at h; cases h
        | false =>
          cases hid : encode m.index key.toNat (seq_next sl.entry.seq) with
          | none => simp only [hb, hid] at h; cases h
          | some id => exact ⟨sl, id, by omega, by omega, rfl, hb, hid⟩

theorem get_iff (slot_of : Nat → Nat) (m : session_manager) (id : Nat) (s : session) :
    session_manager_get slot_of m id = some s ↔
      ∃ sl, m.entries[slot_of (SID_KEY id)]? = some sl ∧ sl.bound = true ∧
        sl.entry.key = (SID_KEY id : Int) ∧ sl.entry.seq = SID_SEQ id ∧
        sl.entry.data = s := by
  unfold session_manager_get locate
  cases he : m.entries[slot_of (SID_KEY id)]? with
  | none => simp
  | some sl =>
    by_cases hl : sl.bound = true ∧ sl.entry.key = (SID_KEY id : Int)
    · by_cases hs : sl.entry.seq = SID_SEQ id
      · simp [hl, hs]
      · simp [hl, hs]
    · simp only [if_neg hl]
      constructor
      · intro h; cases h
      · rintro ⟨sl2, h1, h2, h3, _⟩
        cases h1
        exact absurd ⟨h2, h3⟩ hl

theorem get_eq_none (slot_of : Nat → Nat) (m : session_manager) (id : Nat) (sl : slot)
    (he : m.entries[slot_of (SID_KEY id)]? = some sl)
    (h : sl.bound = false ∨ sl.entry.seq ≠ SID_SEQ id) :
    session_manager_get slot_of m id = none := by
  cases hg : session_manager_get slot_of m id with
  | none => rfl
  | some s =>
    obtain ⟨sl2, h1, h2, _, h4, _⟩ := (get_iff slot_of m id s).mp hg
    rw [he] at h1
    cases h1
    rcases h with h | h
    · rw [h] at h2; cases h2
    · exact absurd h4 h

theorem remove_ok (slot_of : Nat → Nat) (m : session_manager) (s : session) (sl : slot)
    (he : m.entries[slot_of (SID_KEY s.id)]? = some sl) (hb : sl.bound = true)
    (hk : sl.entry.key = (SID_KEY s.id : Int)) (hs : sl.entry.seq = SID_SEQ s.id) :
    session_manager_remove slot_of m s =
      some { m with
              count := m.count - 1
              entries := m.entries.set (slot_of (SID_KEY s.id)) { sl with bound := false } } := by
  unfold session_manager_remove locate
  simp only [he, hb, hk, hs, and_self, if_true]

/-- C2: after `alloc(key)` yields a session with handle H1, `get(H1)` returns
it; `remove` of it succeeds and `get(H1)` then fails; a second `alloc(key)`
succeeds with a handle H2 that differs from H1 (same manager index and key,
different sequence); after it `get(H1)` returns not-found and `get(H2)` returns
the new session.  A handle yields a session exactly when the slot of its key is
bound to that key and holds the handle's sequence. -/
theorem stale_handle_rejection (slot_of : Nat → Nat) (m m1 : session_manager) (key : Int)
    (s1 : session) (h1 : session_manager_alloc slot_of m key = .ok (m1, s1)) :
    session_manager_get slot_of m1 s1.id = some s1 ∧
    (∃ m2, session_manager_remove slot_of m1 s1 = some m2 ∧
      session_manager_get slot_of m2 s1.id = none ∧
      ∃ m3 s2, session_manager_alloc slot_of m2 key = .ok (m3, s2) ∧
        s2.id ≠ s1.id ∧ SID_INDEX s2.id = SID_INDEX s1.id ∧
        SID_KEY s2.id = SID_KEY s1.id ∧ SID_SEQ s2.id ≠ SID_SEQ s1.id ∧
        session_manager_get slot_of m3 s1.id = none ∧
        session_manager_get slot_of m3 s2.id = some s2) ∧
    (∀ (mm : session_manager) (h : Nat) (s : session),
      session_manager_get slot_of mm h = some s ↔
        ∃ sl, mm.entries[slot_of (SID_KEY h)]? = some sl ∧ sl.bound = true ∧
          sl.entry.key = (SID_KEY h : Int) ∧ sl.entry.seq = SID_SEQ h ∧
          sl.entry.data = s) := by
  obtain ⟨sl, id, hk, hc, he, hb, hid⟩ := alloc_inv slot_of m m1 key s1 h1
  have hok := alloc_ok slot_of m key sl id hk hc he hb hid
  rw [h1] at hok
  injection hok with hok
  injection hok with hm1 hs1
  obtain ⟨hk32, hs16, hkey, hseq, hidx⟩ := encode_inv _ _ _ _ hid
  have hkI : ((SID_KEY id : Nat) : Int) = key := by rw [hkey]; exact Int.toNat_of_nonneg hk
  -- the state after the first alloc
  have hid1 : s1.id = id := by rw [hs1]
  have he1 : m1.entries[slot_of (SID_KEY id)]? =
      some { entry := { key := key, seq := seq_next sl.entry.seq, data := s1 },
             bound := true } := by
    rw [hm1, hkey, hs1]
    exact getElem?_set_of_some _ _ _ _ he
  have hg1 : session_manager_get slot_of m1 s1.id = some s1 := by
    rw [hid1]
    exact (get_iff slot_of m1 id s1).mpr ⟨_, he1, rfl, hkI.symm, hseq.symm, rfl⟩
  have he1k := he1
  rw [hkey] at he1k
  -- remove
  have hrm := remove_ok slot_of m1 s1 _ (by rw [hid1]; exact he1) rfl
    (by rw [hid1]; exact hkI.symm) (by rw [hid1]; exact hseq.symm)
  rw [hid1, hkey] at hrm
  have hsize1 : m1.size = m.size := by rw [hm1]
  have hcount1 : m1.count = m.count + 1 := by rw [hm1]
  have hindex1 : m1.index = m.index := by rw [hm1]
  refine ⟨hg1, ⟨_, hrm, ?_, ?_⟩, get_iff slot_of⟩
  · rw [hid1]
    refine get_eq_none slot_of _ id
      { entry := { key := key, seq := seq_next sl.entry.seq, data := s1 }, bound := false }
      ?_ (Or.inl rfl)
    rw [hkey]
    exact getElem?_set_of_some _ _ _ _ he1k
  · -- the second alloc
    obtain ⟨id2, hid2⟩ : ∃ id2, encode m.index key.toNat
        (seq_next (seq_next sl.entry.seq)) = some id2 :=
      ⟨_, encode_val _ _ _ hk32 (seq_next_lt _)⟩
    obtain ⟨_, _, hkey2, hseq2, hidx2⟩ := encode_inv _ _ _ _ hid2
    have he2 := getElem?_set_of_some m1.entries (slot_of key.toNat)
      { entry := { key := key, seq := seq_next sl.entry.seq, data := s1 }, bound := true }
      { entry := { key := key, seq := seq_next sl.entry.seq, data := s1 }, bound := false }
      he1k
    have hok2 := alloc_ok slot_of
      { m1 with
          count := m1.count - 1
          entries := m1.entries.set (slot_of key.toNat)
            { entry := { key := key, seq := seq_next sl.entry.seq, data := s1 },
              bound := false } }
      key _ id2 hk (by show m1.count - 1 < m1.size; omega)
      he2 rfl (by rw [hindex1]; exact hid2)
    have hseqne : SID_SEQ id2 ≠ SID_SEQ id := by
      rw [hseq2, hseq]; exact seq_next_ne _
    have hslot2 : slot_of (SID_KEY id2) = slot_of key.toNat := by rw [hkey2]
    have hkI2 : ((SID_KEY id2 : Nat) : Int) = key := by
      rw [hkey2]; exact Int.toNat_of_nonneg hk
    refine ⟨_, _, hok2, ?_, ?_, ?_, ?_, ?_, ?_⟩
    · rw [hid1]
      intro h
      exact hseqne (congrArg SID_SEQ h)
    · rw [hid1]
      show SID_INDEX id2 = SID_INDEX id
      rw [SID_INDEX, SID_INDEX, hidx, hidx2]
    · rw [hid1]
      show SID_KEY id2 = SID_KEY id
      rw [hkey, hkey2]
    · rw [hid1]; exact hseqne
    · rw [hid1]
      refine get_eq_none slot_of _ id
        { entry := { key := key, seq := seq_next (seq_next sl.entry.seq),
                     data := { s1 with id := id2 } }, bound := true } ?_ (Or.inr ?_)
      · rw [hkey]
        exact getElem?_set_of_some _ _ _ _ he2
      · show seq_next (seq_next sl.entry.seq) ≠ SID_SEQ id
        rw [hseq]; exact seq_next_ne _
    · refine (get_iff slot_of _ _ _).mpr
        ⟨{ entry := { key := key, seq := seq_next (seq_next sl.entry.seq),
                      data := { s1 with id := id2 } }, bound := true },
          ?_, rfl, ?_, ?_, rfl⟩
      · show (List.set _ _ _)[slot_of (SID_KEY id2)]? = _
        rw [hslot2]
        exact getElem?_set_of_some _ _ _ _ he2
      · exact hkI2.symm
      · exact hseq2.symm

theorem stale_handle_rejection_witness :
    ∃ m1 s1,
      session_manager_alloc (fun k => k % 4) (session_manager_create 0 4) 7 = .ok (m1, s1) ∧
      s1.id = 0x0001000000070001 ∧
      (session_manager_get (fun k => k % 4) m1 s1.id = some s1 ∧
      (∃ m2, session_manager_remove (fun k => k % 4) m1 s1 = some m2 ∧
        session_manager_get (fun k => k % 4) m2 s1.id = none ∧
        ∃ m3 s2, session_manager_alloc (fun k => k % 4) m2 7 = .ok (m3, s2) ∧
          s2.id ≠ s1.id ∧ SID_INDEX s2.id = SID_INDEX s1.id ∧
          SID_KEY s2.id = SID_KEY s1.id ∧ SID_SEQ s2.id ≠ SID_SEQ s1.id ∧
          session_manager_get (fun k => k % 4) m3 s1.id = none ∧
          session_manager_get (fun k => k % 4) m3 s2.id = some s2) ∧
      (∀ (mm : session_manager) (h : Nat) (s : session),
        session_manager_get (fun k => k % 4) mm h = some s ↔
          ∃ sl, mm.entries[(fun k => k % 4) (SID_KEY h)]? = some sl ∧ sl.bound = true ∧
            sl.entry.key = (SID_KEY h : Int) ∧ sl.entry.seq = SID_SEQ h ∧
            sl.entry.data = s)) :=
  ⟨_, _, rfl, rfl, stale_handle_rejection (fun k => k % 4) (session_manager_create 0 4) _ 7 _ rfl⟩

end Session
